import Mathlib

/-!
Shallow embedding of the portfolio tracker core: the buy/sell ledger
mutations of `source_code/transactions.py` and the valuation functions
of `source code/analysis.py`.

Python dicts are embedded as insertion-ordered association lists:
assignment to an existing key keeps its position, assignment to a new
key appends at the end, and `del` removes the entry.  Python floats are
embedded as exact rationals; Python ints as `Int`.  A Python function
that may `raise` is embedded to return the ledger content at exit
together with an optional error: every `raise` in the source occurs
before any dict write, so the error branches return the ledger
unchanged, exactly as the corresponding dict object is at the exception.
-/

deriving instance DecidableEq for Except

namespace PortfolioTracker

/-- A stock record: field name to price, as in the per-symbol dicts of
`stocks` (fields may be absent, as in a malformed record). -/
abbrev StockRec := List (String × ℚ)

/-- The stocks reference data: symbol to record. -/
abbrev Catalog := List (String × StockRec)

/-- The portfolio: symbol to share count. -/
abbrev Ledger := List (String × Int)

/-- Python dict assignment `d[k] = v`: replace the value at the first
occurrence of `k`, or append `(k, v)` when `k` is absent. -/
def setKey : Ledger → String → Int → Ledger
  | [], k, v => [(k, v)]
  | (k', v') :: rest, k, v =>
    if k' = k then (k', v) :: rest else (k', v') :: setKey rest k v

/-- Python dict deletion `del d[k]`: remove the first occurrence of `k`. -/
def delKey : Ledger → String → Ledger
  | [], _ => []
  | (k', v') :: rest, k =>
    if k' = k then rest else (k', v') :: delKey rest k

/-- The errors raised by `transactions.py` (all are `ValueError` in the
source; the constructor records which message, with the numbers the
message interpolates). -/
inductive TxError
  | invalidQuantity
  | unknownSymbol (symbol : String)
  | notOwned (symbol : String)
  | insufficientShares (owned requested : Int)
deriving Repr, DecidableEq

/-- `buy` from `transactions.py`: validate `qty > 0`, validate the
symbol exists in `stocks`, then add `qty` to the current count
(`portfolio.get(symbol, 0)`).  Returns the ledger content at exit and
the error, if any, that the call raised. -/
def buy (portfolio : Ledger) (stocks : Catalog) (symbol : String) (qty : Int) :
    Ledger × Option TxError :=
  if qty ≤ 0 then
    (portfolio, some .invalidQuantity)
  else if (List.lookup symbol stocks).isNone then
    (portfolio, some (.unknownSymbol symbol))
  else
    let current_qty := (List.lookup symbol portfolio).getD 0
    (setKey portfolio symbol (current_qty + qty), none)

/-- `sell` from `transactions.py`: validate `qty > 0`, validate the
symbol is owned, validate enough shares are held, then decrement; when
the count reaches exactly 0 the entry is deleted.  The `stocks`
argument is never read, as in the source. -/
def sell (portfolio : Ledger) (_stocks : Catalog) (symbol : String) (qty : Int) :
    Ledger × Option TxError :=
  if qty ≤ 0 then
    (portfolio, some .invalidQuantity)
  else
    match List.lookup symbol portfolio with
    | none => (portfolio, some (.notOwned symbol))
    | some owned =>
      if owned < qty then
        (portfolio, some (.insufficientShares owned qty))
      else
        let p := setKey portfolio symbol (owned - qty)
        if List.lookup symbol p = some 0 then
          (delKey p symbol, none)
        else
          (p, none)

/-- The Ledger invariant of the spec: every held count is strictly
positive. -/
def PosLedger (portfolio : Ledger) : Prop := ∀ e ∈ portfolio, 0 < e.2

/-- Keys are pairwise distinct, as in any Python dict. -/
def NodupKeys (portfolio : Ledger) : Prop := (portfolio.map Prod.fst).Nodup

instance (l : Ledger) : Decidable (PosLedger l) :=
  inferInstanceAs (Decidable (∀ e ∈ l, 0 < e.2))

instance (l : Ledger) : Decidable (NodupKeys l) :=
  inferInstanceAs (Decidable (l.map Prod.fst).Nodup)

/-! ### Association-list lemmas -/

theorem lookup_cons {β : Type} (k k' : String) (v : β) (rest : List (String × β)) :
    List.lookup k ((k', v) :: rest) = if k = k' then some v else List.lookup k rest := by
  rw [List.lookup]
  by_cases h : k = k'
  · simp [h]
  · have hb : (k == k') = false := by simp [h]
    simp [hb, h]

theorem lookup_setKey_self (l : Ledger) (k : String) (v : Int) :
    List.lookup k (setKey l k v) = some v := by
  induction l with
  | nil => simp [setKey, lookup_cons]
  | cons hd tl ih =>
    obtain ⟨k', v'⟩ := hd
    by_cases h : k' = k
    · simp [setKey, h, lookup_cons]
    · simp [setKey, h, lookup_cons, Ne.symm h, ih]

theorem lookup_setKey_ne (l : Ledger) (k k' : String) (v : Int) (h : k' ≠ k) :
    List.lookup k' (setKey l k v) = List.lookup k' l := by
  induction l with
  | nil => simp [setKey, lookup_cons, h]
  | cons hd tl ih =>
    obtain ⟨k₀, v₀⟩ := hd
    by_cases hk : k₀ = k
    · subst hk
      simp [setKey, lookup_cons, h]
    · simp [setKey, hk, lookup_cons, ih]

theorem lookup_delKey_ne (l : Ledger) (k k' : String) (h : k' ≠ k) :
    List.lookup k' (delKey l k) = List.lookup k' l := by
  induction l with
  | nil => simp [delKey]
  | cons hd tl ih =>
    obtain ⟨k₀, v₀⟩ := hd
    by_cases hk : k₀ = k
    · subst hk
      simp [delKey, lookup_cons, h]
    · simp [delKey, hk, lookup_cons, ih]

theorem lookup_eq_none_of_not_mem_keys (l : Ledger) (k : String)
    (h : k ∉ l.map Prod.fst) : List.lookup k l = none := by
  induction l with
  | nil => rfl
  | cons hd tl ih =>
    obtain ⟨k₀, v₀⟩ := hd
    simp only [List.map_cons, List.mem_cons] at h
    push_neg at h
    simp [lookup_cons, h.1, ih h.2]

theorem mem_of_lookup (l : Ledger) (k : String) (v : Int)
    (h : List.lookup k l = some v) : (k, v) ∈ l := by
  induction l with
  | nil => simp [List.lookup] at h
  | cons hd tl ih =>
    obtain ⟨k₀, v₀⟩ := hd
    rw [lookup_cons] at h
    by_cases hk : k = k₀
    · simp [hk] at h
      simp [hk, h]
    · simp [hk] at h
      exact List.mem_cons_of_mem _ (ih h)

theorem delKey_setKey (l : Ledger) (k : String) (v : Int) :
    delKey (setKey l k v) k = delKey l k := by
  induction l with
  | nil => simp [setKey, delKey]
  | cons hd tl ih =>
    obtain ⟨k₀, v₀⟩ := hd
    by_cases hk : k₀ = k <;> simp [setKey, delKey, hk, ih]

theorem setKey_setKey (l : Ledger) (k : String) (a b : Int) :
    setKey (setKey l k a) k b = setKey l k b := by
  induction l with
  | nil => simp [setKey]
  | cons hd tl ih =>
    obtain ⟨k₀, v₀⟩ := hd
    by_cases hk : k₀ = k <;> simp [setKey, hk, ih]

theorem setKey_of_lookup_eq (l : Ledger) (k : String) (v : Int)
    (h : List.lookup k l = some v) : setKey l k v = l := by
  induction l with
  | nil => simp [List.lookup] at h
  | cons hd tl ih =>
    obtain ⟨k₀, v₀⟩ := hd
    rw [lookup_cons] at h
    by_cases hk : k = k₀
    · simp [hk] at h
      simp [setKey, hk, h]
    · simp [hk] at h
      simp [setKey, Ne.symm hk, ih h]

theorem setKey_append_of_lookup_none (l : Ledger) (k : String) (v : Int)
    (h : List.lookup k l = none) : setKey l k v = l ++ [(k, v)] := by
  induction l with
  | nil => simp [setKey]
  | cons hd tl ih =>
    obtain ⟨k₀, v₀⟩ := hd
    rw [lookup_cons] at h
    by_cases hk : k = k₀
    · rw [if_pos hk] at h
      exact absurd h (by simp)
    · rw [if_neg hk] at h
      simp [setKey, Ne.symm hk, ih h]

theorem lookup_append_self (l : Ledger) (k : String) (v : Int)
    (h : List.lookup k l = none) : List.lookup k (l ++ [(k, v)]) = some v := by
  induction l with
  | nil => simp [lookup_cons]
  | cons hd tl ih =>
    obtain ⟨k₀, v₀⟩ := hd
    rw [lookup_cons] at h
    by_cases hk : k = k₀
    · rw [if_pos hk] at h
      exact absurd h (by simp)
    · rw [if_neg hk] at h
      simpa [lookup_cons, hk] using ih h

theorem delKey_append_self (l : Ledger) (k : String) (v : Int)
    (h : List.lookup k l = none) : delKey (l ++ [(k, v)]) k = l := by
  induction l with
  | nil => simp [delKey]
  | cons hd tl ih =>
    obtain ⟨k₀, v₀⟩ := hd
    rw [lookup_cons] at h
    by_cases hk : k = k₀
    · rw [if_pos hk] at h
      exact absurd h (by simp)
    · rw [if_neg hk] at h
      simp [delKey, Ne.symm hk, ih h]

/-! ### Valuation engine, from `analysis.py` -/

/-- The errors raised by `analysis.py` (TypeError, ValueError, KeyError
and ZeroDivisionError in the source; the constructors record which
message).  The isinstance-based TypeError branches of the source are
vacuous in this typed embedding and have no constructor. -/
inductive AnalysisError
  | nonPositiveQuantity (symbol : String) (qty : Int)
  | unknownSymbol (symbol : String)
  | missingField (price_key symbol : String)
  | negativePrice (symbol price_key : String) (price : ℚ)
  | emptyPortfolio
  | divisionByZero
deriving Repr, DecidableEq

/-- The portfolio loop of `_validate_inputs`: the first entry whose
quantity is not strictly positive raises. -/
def validateQtys : Ledger → Option AnalysisError
  | [] => none
  | (symbol, qty) :: rest =>
    if qty ≤ 0 then some (.nonPositiveQuantity symbol qty) else validateQtys rest

/-- `_validate_inputs` from `analysis.py`.  The isinstance checks on the
portfolio, the stocks, their keys, the quantities and the per-symbol
records always pass in this typed embedding; the one dynamic check left
is that every portfolio quantity is strictly positive.  The stocks loop
performs only vacuous shape checks and raises nothing here. -/
def validate_inputs (portfolio : Ledger) (_stocks : Catalog) : Option AnalysisError :=
  validateQtys portfolio

/-- `_get_price` from `analysis.py`: symbol must be in `stocks`, the
record must carry `price_key`, and the price must be non-negative (the
numeric isinstance check is vacuous here). -/
def get_price (stocks : Catalog) (symbol : String) (price_key : String) :
    Except AnalysisError ℚ :=
  match List.lookup symbol stocks with
  | none => .error (.unknownSymbol symbol)
  | some price_info =>
    match List.lookup price_key price_info with
    | none => .error (.missingField price_key symbol)
    | some price =>
      if price < 0 then .error (.negativePrice symbol price_key price)
      else .ok price

/-- The accumulation loop of `portfolio_value`: `total` starts at 0.0
and each holding adds `qty * price`; a failing price lookup aborts the
whole computation. -/
def valueLoop (stocks : Catalog) (price_key : String) :
    Ledger → ℚ → Except AnalysisError ℚ
  | [], total => .ok total
  | (symbol, qty) :: rest, total =>
    match get_price stocks symbol price_key with
    | .error e => .error e
    | .ok price => valueLoop stocks price_key rest (total + qty * price)

/-- `portfolio_value` from `analysis.py`: validate the inputs, then sum
`qty * price` over the holdings. -/
def portfolio_value (portfolio : Ledger) (stocks : Catalog)
    (price_key : String) : Except AnalysisError ℚ :=
  match validate_inputs portfolio stocks with
  | some e => .error e
  | none => valueLoop stocks price_key portfolio 0

/-- `portfolio_cost_basis` from `analysis.py`: `portfolio_value` at the
`initial_price` field. -/
def portfolio_cost_basis (portfolio : Ledger) (stocks : Catalog) :
    Except AnalysisError ℚ :=
  portfolio_value portfolio stocks "initial_price"

/-- `roi_percent` from `analysis.py`: validate, reject an empty
portfolio, compute current value and cost basis, and divide; the Python
division raises ZeroDivisionError when the cost basis is 0.0. -/
def roi_percent (portfolio : Ledger) (stocks : Catalog) :
    Except AnalysisError ℚ :=
  match validate_inputs portfolio stocks with
  | some e => .error e
  | none =>
    if portfolio.isEmpty then .error .emptyPortfolio
    else
      match portfolio_value portfolio stocks "current_price" with
      | .error e => .error e
      | .ok current_val =>
        match portfolio_cost_basis portfolio stocks with
        | .error e => .error e
        | .ok initial_val =>
          if initial_val = 0 then .error .divisionByZero
          else .ok ((current_val - initial_val) / initial_val * 100)

/-- The price `_get_price` would return, defaulted to 0 on failure;
used only to write down the value of a successful sum. -/
def priceD (stocks : Catalog) (symbol price_key : String) : ℚ :=
  match get_price stocks symbol price_key with
  | .ok p => p
  | .error _ => 0

/-! ### Transaction sequences -/

/-- One user action against the ledger: a buy or a sell call with its
arguments. -/
inductive TxOp
  | buyOp (stocks : Catalog) (symbol : String) (qty : Int)
  | sellOp (stocks : Catalog) (symbol : String) (qty : Int)

/-- The ledger content after one call, whether it succeeded or raised. -/
def applyTx (portfolio : Ledger) : TxOp → Ledger
  | .buyOp stocks symbol qty => (buy portfolio stocks symbol qty).1
  | .sellOp stocks symbol qty => (sell portfolio stocks symbol qty).1

/-- The ledger content after a finite sequence of buy/sell calls. -/
def runTxs (portfolio : Ledger) (ops : List TxOp) : Ledger :=
  ops.foldl applyTx portfolio

/-! ### Further ledger lemmas -/

theorem lookup_delKey_self_of_nodup (l : Ledger) (k : String) (h : NodupKeys l) :
    List.lookup k (delKey l k) = none := by
  induction l with
  | nil => rfl
  | cons hd tl ih =>
    obtain ⟨k₀, v₀⟩ := hd
    rw [NodupKeys, List.map_cons, List.nodup_cons] at h
    by_cases hk : k₀ = k
    · subst hk
      have hd : delKey ((k₀, v₀) :: tl) k₀ = tl := by simp [delKey]
      rw [hd]
      exact lookup_eq_none_of_not_mem_keys tl k₀ h.1
    · have hd : delKey ((k₀, v₀) :: tl) k = (k₀, v₀) :: delKey tl k := by
        simp [delKey, hk]
      rw [hd, lookup_cons, if_neg (Ne.symm hk)]
      exact ih h.2

/-- Sample price catalog used by the concrete checks below (scenario 1
of the spec). -/
def appleCatalog : Catalog :=
  [("AAPL", [("initial_price", 150), ("current_price", 165)])]

/-! ### Claims -/

/-- C1: `buy` fails with InvalidQuantity when `qty ≤ 0`, fails with
UnknownSymbol when `qty ≥ 1` and the symbol is absent from the catalog,
and otherwise succeeds, mapping the symbol to its prior count
(default 0) plus `qty` and leaving every other entry unchanged. -/
theorem buy_spec (l : Ledger) (c : Catalog) (s : String) (q : Int) :
    (q ≤ 0 → buy l c s q = (l, some .invalidQuantity)) ∧
    (1 ≤ q → List.lookup s c = none → buy l c s q = (l, some (.unknownSymbol s))) ∧
    (1 ≤ q → (List.lookup s c).isSome →
      (buy l c s q).2 = none ∧
      List.lookup s (buy l c s q).1 = some ((List.lookup s l).getD 0 + q) ∧
      ∀ s' : String, s' ≠ s → List.lookup s' (buy l c s q).1 = List.lookup s' l) := by
  refine ⟨?_, ?_, ?_⟩
  · intro hq
    simp [buy, hq]
  · intro hq hc
    have h0 : ¬ q ≤ 0 := by omega
    simp [buy, h0, hc]
  · intro hq hc
    have h0 : ¬ q ≤ 0 := by omega
    obtain ⟨r, hr⟩ := Option.isSome_iff_exists.mp hc
    refine ⟨by simp [buy, h0, hr], by simp [buy, h0, hr, lookup_setKey_self], ?_⟩
    intro s' hs'
    simp [buy, h0, hr, lookup_setKey_ne l s s' _ hs']

/-- C1 witness: concrete checks of the three branches of `buy_spec`. -/
theorem buy_spec_witness :
    buy [("MSFT", 2)] appleCatalog "AAPL" 0 = ([("MSFT", 2)], some .invalidQuantity) ∧
    buy [("MSFT", 2)] appleCatalog "ZZZZ" 1 = ([("MSFT", 2)], some (.unknownSymbol "ZZZZ")) ∧
    (buy [("MSFT", 2)] appleCatalog "AAPL" 3).2 = none ∧
    List.lookup "AAPL" (buy [("MSFT", 2)] appleCatalog "AAPL" 3).1 =
      some ((List.lookup "AAPL" ([("MSFT", 2)] : Ledger)).getD 0 + 3) ∧
    List.lookup "MSFT" (buy [("MSFT", 2)] appleCatalog "AAPL" 3).1 =
      List.lookup "MSFT" ([("MSFT", 2)] : Ledger) :=
  ⟨(buy_spec [("MSFT", 2)] appleCatalog "AAPL" 0).1 (by decide),
   (buy_spec [("MSFT", 2)] appleCatalog "ZZZZ" 1).2.1 (by decide) (by decide),
   ((buy_spec [("MSFT", 2)] appleCatalog "AAPL" 3).2.2 (by decide) (by decide)).1,
   ((buy_spec [("MSFT", 2)] appleCatalog "AAPL" 3).2.2 (by decide) (by decide)).2.1,
   ((buy_spec [("MSFT", 2)] appleCatalog "AAPL" 3).2.2 (by decide) (by decide)).2.2
     "MSFT" (by decide)⟩

/-- C2: `sell` fails with InvalidQuantity when `qty ≤ 0`, with NotOwned
when the symbol is not held, with InsufficientShares (carrying owned and
requested counts) when the held count is below `qty`; otherwise it
decrements the count by `qty`, removing the entry entirely when the
resulting count is exactly 0, and leaves every other entry unchanged. -/
theorem sell_spec (l : Ledger) (c : Catalog) (s : String) (q : Int) :
    (q ≤ 0 → sell l c s q = (l, some .invalidQuantity)) ∧
    (1 ≤ q → List.lookup s l = none → sell l c s q = (l, some (.notOwned s))) ∧
    (∀ owned : Int, 1 ≤ q → List.lookup s l = some owned → owned < q →
      sell l c s q = (l, some (.insufficientShares owned q))) ∧
    (∀ owned : Int, 1 ≤ q → List.lookup s l = some owned → q ≤ owned →
      (sell l c s q).2 = none ∧
      (owned - q ≠ 0 → List.lookup s (sell l c s q).1 = some (owned - q)) ∧
      (owned - q = 0 → NodupKeys l → List.lookup s (sell l c s q).1 = none) ∧
      ∀ s' : String, s' ≠ s → List.lookup s' (sell l c s q).1 = List.lookup s' l) := by
  refine ⟨?_, ?_, ?_, ?_⟩
  · intro hq
    simp [sell, hq]
  · intro hq hl
    have h0 : ¬ q ≤ 0 := by omega
    simp [sell, h0, hl]
  · intro owned hq hl hlt
    have h0 : ¬ q ≤ 0 := by omega
    simp [sell, h0, hl, hlt]
  · intro owned hq hl hge
    have h0 : ¬ q ≤ 0 := by omega
    have hlt : ¬ owned < q := by omega
    have hsk : List.lookup s (setKey l s (owned - q)) = some (owned - q) :=
      lookup_setKey_self l s (owned - q)
    by_cases hz : owned - q = 0
    · have hcond : List.lookup s (setKey l s (owned - q)) = some 0 := by rw [hsk, hz]
      refine ⟨by simp [sell, h0, hl, hlt, hcond], by simp [hz], ?_, ?_⟩
      · intro _ hnd
        have : (sell l c s q).1 = delKey (setKey l s (owned - q)) s := by
          simp [sell, h0, hl, hlt, hcond]
        rw [this, delKey_setKey]
        exact lookup_delKey_self_of_nodup l s hnd
      · intro s' hs'
        have : (sell l c s q).1 = delKey (setKey l s (owned - q)) s := by
          simp [sell, h0, hl, hlt, hcond]
        rw [this, lookup_delKey_ne _ s s' hs', lookup_setKey_ne l s s' _ hs']
    · have hcond : ¬ List.lookup s (setKey l s (owned - q)) = some 0 := by
        rw [hsk]
        simp [hz]
      have hres : (sell l c s q).1 = setKey l s (owned - q) := by
        simp [sell, h0, hl, hlt, hcond]
      refine ⟨by simp [sell, h0, hl, hlt, hcond], ?_, by simp [hz], ?_⟩
      · intro _
        rw [hres]
        exact hsk
      · intro s' hs'
        rw [hres, lookup_setKey_ne l s s' _ hs']

/-- C2 witness: concrete checks of the branches of `sell_spec`,
including full-position removal (scenario 2) and the insufficient-shares
failure (scenario 3). -/
theorem sell_spec_witness :
    sell [("AAPL", 2), ("MSFT", 1)] appleCatalog "AAPL" 0 =
      ([("AAPL", 2), ("MSFT", 1)], some .invalidQuantity) ∧
    sell [("AAPL", 2), ("MSFT", 1)] appleCatalog "GOOG" 1 =
      ([("AAPL", 2), ("MSFT", 1)], some (.notOwned "GOOG")) ∧
    sell [("AAPL", 2), ("MSFT", 1)] appleCatalog "AAPL" 5 =
      ([("AAPL", 2), ("MSFT", 1)], some (.insufficientShares 2 5)) ∧
    List.lookup "AAPL" (sell [("AAPL", 2), ("MSFT", 1)] appleCatalog "AAPL" 1).1 =
      some 1 ∧
    List.lookup "MSFT" (sell [("AAPL", 2), ("MSFT", 1)] appleCatalog "MSFT" 1).1 =
      none ∧
    List.lookup "AAPL" (sell [("AAPL", 2), ("MSFT", 1)] appleCatalog "MSFT" 1).1 =
      List.lookup "AAPL" ([("AAPL", 2), ("MSFT", 1)] : Ledger) :=
  ⟨(sell_spec [("AAPL", 2), ("MSFT", 1)] appleCatalog "AAPL" 0).1 (by decide),
   (sell_spec [("AAPL", 2), ("MSFT", 1)] appleCatalog "GOOG" 1).2.1 (by decide) (by decide),
   (sell_spec [("AAPL", 2), ("MSFT", 1)] appleCatalog "AAPL" 5).2.2.1 2
     (by decide) (by decide) (by decide),
   (((sell_spec [("AAPL", 2), ("MSFT", 1)] appleCatalog "AAPL" 1).2.2.2 2
     (by decide) (by decide) (by decide)).2.1 (by decide)).trans (by decide),
   ((sell_spec [("AAPL", 2), ("MSFT", 1)] appleCatalog "MSFT" 1).2.2.2 1
     (by decide) (by decide) (by decide)).2.2.1 (by decide) (by decide),
   ((sell_spec [("AAPL", 2), ("MSFT", 1)] appleCatalog "MSFT" 1).2.2.2 1
     (by decide) (by decide) (by decide)).2.2.2 "AAPL" (by decide)⟩

/-- C3: whenever `buy` or `sell` raises, the ledger at exit is exactly
the ledger at entry: no partial mutation occurs. -/
theorem failure_preserves_ledger (l : Ledger) (c : Catalog) (s : String) (q : Int) :
    ((buy l c s q).2.isSome → (buy l c s q).1 = l) ∧
    ((sell l c s q).2.isSome → (sell l c s q).1 = l) := by
  constructor
  · by_cases h0 : q ≤ 0
    · simp [buy, h0]
    · cases hc : List.lookup s c with
      | none => simp [buy, h0, hc]
      | some r => simp [buy, h0, hc]
  · by_cases h0 : q ≤ 0
    · simp [sell, h0]
    · cases hl : List.lookup s l with
      | none => simp [sell, h0, hl]
      | some owned =>
        by_cases hlt : owned < q
        · simp [sell, h0, hl, hlt]
        · by_cases hz : List.lookup s (setKey l s (owned - q)) = some 0 <;>
            simp [sell, h0, hl, hlt, hz]

/-- C3 witness: concrete failing calls leave the ledger untouched. -/
theorem failure_preserves_ledger_witness :
    (buy [("AAPL", 2)] appleCatalog "AAPL" 0).1 = [("AAPL", 2)] ∧
    (sell [("AAPL", 2)] appleCatalog "AAPL" 5).1 = [("AAPL", 2)] :=
  ⟨(failure_preserves_ledger [("AAPL", 2)] appleCatalog "AAPL" 0).1 (by decide),
   (failure_preserves_ledger [("AAPL", 2)] appleCatalog "AAPL" 5).2 (by decide)⟩

theorem mem_setKey (l : Ledger) (k : String) (v : Int) (e : String × Int)
    (he : e ∈ setKey l k v) : e = (k, v) ∨ e ∈ l := by
  induction l with
  | nil =>
    simp [setKey] at he
    exact Or.inl he
  | cons hd tl ih =>
    obtain ⟨k₀, v₀⟩ := hd
    by_cases hk : k₀ = k
    · simp only [setKey, if_pos hk, List.mem_cons] at he
      rcases he with he | he
      · exact Or.inl (by rw [he, hk])
      · exact Or.inr (List.mem_cons_of_mem _ he)
    · simp only [setKey, if_neg hk, List.mem_cons] at he
      rcases he with he | he
      · exact Or.inr (by simp [he])
      · rcases ih he with h | h
        · exact Or.inl h
        · exact Or.inr (List.mem_cons_of_mem _ h)

theorem mem_delKey (l : Ledger) (k : String) (e : String × Int)
    (he : e ∈ delKey l k) : e ∈ l := by
  induction l with
  | nil => simp [delKey] at he
  | cons hd tl ih =>
    obtain ⟨k₀, v₀⟩ := hd
    by_cases hk : k₀ = k
    · simp only [delKey, if_pos hk] at he
      exact List.mem_cons_of_mem _ he
    · simp only [delKey, if_neg hk, List.mem_cons] at he
      rcases he with he | he
      · simp [he]
      · exact List.mem_cons_of_mem _ (ih he)

theorem buy_preserves_pos (l : Ledger) (c : Catalog) (s : String) (q : Int)
    (hl : PosLedger l) : PosLedger (buy l c s q).1 := by
  by_cases h0 : q ≤ 0
  · simpa [buy, h0] using hl
  · cases hc : List.lookup s c with
    | none => simpa [buy, h0, hc] using hl
    | some r =>
      have hq : 0 < q := by omega
      have hcur : 0 ≤ (List.lookup s l).getD 0 := by
        cases hll : List.lookup s l with
        | none => simp
        | some v =>
          have hv := hl (s, v) (mem_of_lookup l s v hll)
          simp only [Option.getD_some]
          exact le_of_lt hv
      have hres : (buy l c s q).1 = setKey l s ((List.lookup s l).getD 0 + q) := by
        simp [buy, h0, hc]
      rw [hres]
      intro e he
      rcases mem_setKey _ _ _ _ he with h | h
      · rw [h]
        show 0 < (List.lookup s l).getD 0 + q
        omega
      · exact hl e h

theorem sell_preserves_pos (l : Ledger) (c : Catalog) (s : String) (q : Int)
    (hl : PosLedger l) : PosLedger (sell l c s q).1 := by
  by_cases h0 : q ≤ 0
  · simpa [sell, h0] using hl
  · cases hll : List.lookup s l with
    | none => simpa [sell, h0, hll] using hl
    | some owned =>
      by_cases hlt : owned < q
      · simpa [sell, h0, hll, hlt] using hl
      · by_cases hz : List.lookup s (setKey l s (owned - q)) = some 0
        · have hres : (sell l c s q).1 = delKey (setKey l s (owned - q)) s := by
            simp [sell, h0, hll, hlt, hz]
          rw [hres, delKey_setKey]
          intro e he
          exact hl e (mem_delKey l s e he)
        · have hres : (sell l c s q).1 = setKey l s (owned - q) := by
            simp [sell, h0, hll, hlt, hz]
          have hnz : owned - q ≠ 0 := fun hc0 =>
            hz (by rw [lookup_setKey_self l s (owned - q), hc0])
          have hpos : 0 < owned - q := by omega
          rw [hres]
          intro e he
          rcases mem_setKey _ _ _ _ he with h | h
          · rw [h]
            exact hpos
          · exact hl e h

theorem runTxs_pos : ∀ (ops : List TxOp) (l : Ledger),
    PosLedger l → PosLedger (runTxs l ops)
  | [], l, hl => by simpa [runTxs] using hl
  | op :: rest, l, hl => by
    rw [runTxs, List.foldl_cons]
    have h1 : PosLedger (applyTx l op) := by
      cases op with
      | buyOp c s q => exact buy_preserves_pos l c s q hl
      | sellOp c s q => exact sell_preserves_pos l c s q hl
    exact runTxs_pos rest (applyTx l op) h1

/-- C4: starting from any ledger whose counts are all strictly
positive, after any finite sequence of buy and sell calls (succeeding
or failing) every count is still strictly positive: no symbol ever
maps to 0 or a negative count. -/
theorem ledger_invariant_preserved (l : Ledger) (ops : List TxOp)
    (hl : PosLedger l) : PosLedger (runTxs l ops) :=
  runTxs_pos ops l hl

/-- C4 witness: a concrete mixed sequence of succeeding and failing
calls, starting from the empty ledger. -/
theorem ledger_invariant_preserved_witness :
    PosLedger (runTxs []
      [.buyOp appleCatalog "AAPL" 3, .sellOp appleCatalog "AAPL" 5,
       .sellOp appleCatalog "AAPL" 2, .buyOp appleCatalog "AAPL" 0,
       .sellOp appleCatalog "AAPL" 1]) :=
  ledger_invariant_preserved []
    [.buyOp appleCatalog "AAPL" 3, .sellOp appleCatalog "AAPL" 5,
     .sellOp appleCatalog "AAPL" 2, .buyOp appleCatalog "AAPL" 0,
     .sellOp appleCatalog "AAPL" 1] (by decide)

/-- C8: for a ledger satisfying the invariant, a symbol present in the
catalog and `qty ≥ 1`, buying and then selling the same quantity of the
same symbol succeeds and returns the ledger to exactly its prior
state (the symbol re-mapped to its old count when it existed, removed
entirely when it did not). -/
theorem buy_sell_roundtrip (l : Ledger) (c : Catalog) (s : String) (q : Int)
    (hl : PosLedger l) (hc : (List.lookup s c).isSome) (hq : 1 ≤ q) :
    (buy l c s q).2 = none ∧
    (sell (buy l c s q).1 c s q).2 = none ∧
    (sell (buy l c s q).1 c s q).1 = l := by
  have h0 : ¬ q ≤ 0 := by omega
  obtain ⟨r, hr⟩ := Option.isSome_iff_exists.mp hc
  have hbuy2 : (buy l c s q).2 = none := by simp [buy, h0, hr]
  cases hll : List.lookup s l with
  | some v =>
    have hv : 0 < v := hl (s, v) (mem_of_lookup l s v hll)
    have hb1 : (buy l c s q).1 = setKey l s (v + q) := by
      simp [buy, h0, hr, hll]
    have hlookup : List.lookup s (buy l c s q).1 = some (v + q) := by
      rw [hb1]
      exact lookup_setKey_self l s (v + q)
    have hlt : ¬ v + q < q := by omega
    have hp : setKey (buy l c s q).1 s v = l := by
      rw [hb1, setKey_setKey]
      exact setKey_of_lookup_eq l s v hll
    have hnz : ¬ List.lookup s (setKey (buy l c s q).1 s v) = some 0 := by
      rw [lookup_setKey_self]
      have : v ≠ 0 := by omega
      simp [this]
    refine ⟨hbuy2, ?_, ?_⟩
    · simp [sell, h0, hlookup, hlt, hnz]
    · have hv0 : v ≠ 0 := by omega
      simp [sell, h0, hlookup, hlt, hnz, hp, hll, hv0]
  | none =>
    have hb1 : (buy l c s q).1 = l ++ [(s, q)] := by
      have : (buy l c s q).1 = setKey l s (0 + q) := by
        simp [buy, h0, hr, hll]
      rw [this, zero_add]
      exact setKey_append_of_lookup_none l s q hll
    have hlookup : List.lookup s (buy l c s q).1 = some q := by
      rw [hb1]
      exact lookup_append_self l s q hll
    have hlt : ¬ q < q := by omega
    have hp : setKey (buy l c s q).1 s 0 = l ++ [(s, 0)] := by
      rw [hb1, ← setKey_append_of_lookup_none l s q hll, setKey_setKey]
      exact setKey_append_of_lookup_none l s 0 hll
    have hcond : List.lookup s (setKey (buy l c s q).1 s 0) = some 0 := by
      rw [hp]
      exact lookup_append_self l s 0 hll
    refine ⟨hbuy2, ?_, ?_⟩
    · simp [sell, h0, hlookup, hlt, hcond]
    · have hfin : (sell (buy l c s q).1 c s q).1 =
          delKey (setKey (buy l c s q).1 s 0) s := by
        simp [sell, h0, hlookup, hlt, hcond]
      rw [hfin, hp]
      exact delKey_append_self l s 0 hll

/-- C8 witness: a concrete roundtrip on a held symbol and on a fresh
symbol. -/
theorem buy_sell_roundtrip_witness :
    ((buy [("AAPL", 2)] appleCatalog "AAPL" 3).2 = none ∧
     (sell (buy [("AAPL", 2)] appleCatalog "AAPL" 3).1 appleCatalog "AAPL" 3).2 = none ∧
     (sell (buy [("AAPL", 2)] appleCatalog "AAPL" 3).1 appleCatalog "AAPL" 3).1 =
       [("AAPL", 2)]) ∧
    ((buy [("MSFT", 1)] appleCatalog "AAPL" 2).2 = none ∧
     (sell (buy [("MSFT", 1)] appleCatalog "AAPL" 2).1 appleCatalog "AAPL" 2).2 = none ∧
     (sell (buy [("MSFT", 1)] appleCatalog "AAPL" 2).1 appleCatalog "AAPL" 2).1 =
       [("MSFT", 1)]) :=
  ⟨buy_sell_roundtrip [("AAPL", 2)] appleCatalog "AAPL" 3
     (by decide) (by decide) (by decide),
   buy_sell_roundtrip [("MSFT", 1)] appleCatalog "AAPL" 2
     (by decide) (by decide) (by decide)⟩

/-- C10: `sell` never reads its catalog argument, so any two catalogs
give identical outcomes; in particular a holding can be sold when its
symbol has no price record at all. -/
theorem sell_catalog_independent (l : Ledger) (c₁ c₂ : Catalog) (s : String) (q : Int) :
    sell l c₁ s q = sell l c₂ s q := rfl

/-! ### Valuation lemmas -/

theorem valueLoop_ok (c : Catalog) (f : String) :
    ∀ (l : Ledger) (t : ℚ), (∀ e ∈ l, ∃ p, get_price c e.1 f = .ok p) →
      valueLoop c f l t = .ok (t + (l.map fun e => (e.2 : ℚ) * priceD c e.1 f).sum)
  | [], t, _ => by simp [valueLoop]
  | (s, q) :: rest, t, h => by
    obtain ⟨p, hp⟩ := h (s, q) (List.mem_cons_self _ _)
    have hpd : priceD c s f = p := by simp [priceD, hp]
    have hrest : ∀ e ∈ rest, ∃ p', get_price c e.1 f = .ok p' :=
      fun e he => h e (List.mem_cons_of_mem _ he)
    have step : valueLoop c f ((s, q) :: rest) t = valueLoop c f rest (t + (q : ℚ) * p) := by
      rw [valueLoop, hp]
    rw [step, valueLoop_ok c f rest (t + (q : ℚ) * p) hrest]
    simp only [List.map_cons, List.sum_cons, hpd, Except.ok.injEq]
    ring

theorem valueLoop_abort (c : Catalog) (f s : String) (q : Int)
    (l₂ : Ledger) (err : AnalysisError) (hs : get_price c s f = .error err) :
    ∀ (l₁ : Ledger) (t : ℚ), (∀ e ∈ l₁, ∃ p, get_price c e.1 f = .ok p) →
      valueLoop c f (l₁ ++ (s, q) :: l₂) t = .error err
  | [], t, _ => by
    rw [List.nil_append, valueLoop, hs]
  | (s₁, q₁) :: rest, t, h => by
    obtain ⟨p, hp⟩ := h (s₁, q₁) (List.mem_cons_self _ _)
    have hrest : ∀ e ∈ rest, ∃ p', get_price c e.1 f = .ok p' :=
      fun e he => h e (List.mem_cons_of_mem _ he)
    have step : valueLoop c f (((s₁, q₁) :: rest) ++ (s, q) :: l₂) t
        = valueLoop c f (rest ++ (s, q) :: l₂) (t + (q₁ : ℚ) * p) := by
      rw [List.cons_append, valueLoop, hp]
    rw [step]
    exact valueLoop_abort c f s q l₂ err hs rest (t + (q₁ : ℚ) * p) hrest

theorem validate_of_value_ok (l : Ledger) (c : Catalog) (f : String) (v : ℚ)
    (h : portfolio_value l c f = .ok v) : validate_inputs l c = none := by
  cases hv : validate_inputs l c with
  | none => rfl
  | some e =>
    rw [portfolio_value, hv] at h
    exact absurd h (by simp)

theorem value_singleton (c : Catalog) (A f : String) (k : Int) (p : ℚ)
    (hk : 0 < k) (hp : get_price c A f = .ok p) :
    portfolio_value [(A, k)] c f = .ok ((k : ℚ) * p) := by
  have hk' : ¬ k ≤ 0 := by omega
  simp [portfolio_value, validate_inputs, validateQtys, hk', valueLoop, hp]

theorem current_ne_initial : ("current_price" : String) = "initial_price" ↔ False :=
  iff_false_intro (by decide)

/-! ### Valuation claims -/

/-- C6: on a valid ledger whose every held symbol has a successful
price lookup at the requested field, `portfolio_value` returns the sum
of `qty * price` over the entries; the empty ledger yields 0 (not an
error); and `portfolio_cost_basis` is exactly `portfolio_value` at the
`initial_price` field. -/
theorem value_spec (l : Ledger) (c : Catalog) (f : String)
    (hval : validate_inputs l c = none)
    (hp : ∀ e ∈ l, ∃ p, get_price c e.1 f = .ok p) :
    portfolio_value l c f = .ok ((l.map fun e => (e.2 : ℚ) * priceD c e.1 f).sum) ∧
    (∀ c' : Catalog, portfolio_value [] c' f = .ok 0) ∧
    (∀ (l' : Ledger) (c' : Catalog),
      portfolio_cost_basis l' c' = portfolio_value l' c' "initial_price") := by
  refine ⟨?_, ?_, fun l' c' => rfl⟩
  · rw [portfolio_value, hval, valueLoop_ok c f l 0 hp, zero_add]
  · intro c'
    simp [portfolio_value, validate_inputs, validateQtys, valueLoop]

/-- C6 witness: scenario 1 of the spec, and the empty ledger. -/
theorem value_spec_witness :
    portfolio_value [("AAPL", 3)] appleCatalog "current_price" = .ok 495 ∧
    portfolio_value [] appleCatalog "current_price" = .ok 0 ∧
    portfolio_cost_basis [("AAPL", 3)] appleCatalog =
      portfolio_value [("AAPL", 3)] appleCatalog "initial_price" := by
  have h := value_spec [("AAPL", 3)] appleCatalog "current_price" (by decide)
    (fun e he => by
      rw [List.mem_singleton] at he
      exact ⟨165, by rw [he]; decide⟩)
  refine ⟨h.1.trans ?_, h.2.1 appleCatalog, h.2.2 [("AAPL", 3)] appleCatalog⟩
  norm_num [priceD, get_price, appleCatalog, lookup_cons, current_ne_initial]

/-- C7: `portfolio_value` (hence `portfolio_cost_basis`) runs input
validation before any price lookup, and its per-symbol lookup fails
with UnknownSymbol when the symbol is absent from the catalog and with
MissingField when the record lacks the requested field; the whole
computation aborts with the error of the first failing entry, so no
partial sum is ever returned. -/
theorem value_validation_and_abort (l l₁ l₂ : Ledger) (c : Catalog)
    (f s : String) (q : Int) (err : AnalysisError) :
    (∀ e₀ : AnalysisError, validate_inputs l c = some e₀ →
      portfolio_value l c f = .error e₀) ∧
    (validate_inputs (l₁ ++ (s, q) :: l₂) c = none →
     (∀ e ∈ l₁, ∃ p, get_price c e.1 f = .ok p) →
     get_price c s f = .error err →
     portfolio_value (l₁ ++ (s, q) :: l₂) c f = .error err) ∧
    (List.lookup s c = none → get_price c s f = .error (.unknownSymbol s)) ∧
    (∀ info : StockRec, List.lookup s c = some info → List.lookup f info = none →
      get_price c s f = .error (.missingField f s)) := by
  refine ⟨?_, ?_, ?_, ?_⟩
  · intro e₀ h
    rw [portfolio_value, h]
  · intro hval hok hs
    rw [portfolio_value, hval]
    exact valueLoop_abort c f s q l₂ err hs l₁ 0 hok
  · intro h
    rw [get_price, h]
  · intro info h1 h2
    simp [get_price, h1, h2]

/-- C7 witness: a ledger rejected by validation, an abort at the first
unknown symbol, and the two lookup failure kinds. -/
theorem value_validation_and_abort_witness :
    portfolio_value [("AAPL", 0)] appleCatalog "current_price" =
      .error (.nonPositiveQuantity "AAPL" 0) ∧
    portfolio_value [("AAPL", 1), ("ZZZZ", 2), ("MSFT", 1)] appleCatalog
      "current_price" = .error (.unknownSymbol "ZZZZ") ∧
    get_price appleCatalog "ZZZZ" "current_price" =
      .error (.unknownSymbol "ZZZZ") ∧
    get_price appleCatalog "AAPL" "close_price" =
      .error (.missingField "close_price" "AAPL") := by
  have h := value_validation_and_abort [("AAPL", 0)]
    [("AAPL", 1)] [("MSFT", 1)] appleCatalog "current_price" "ZZZZ" 2
    (.unknownSymbol "ZZZZ")
  have h' := value_validation_and_abort [] [] [] appleCatalog "close_price" "AAPL" 0
    (.missingField "close_price" "AAPL")
  refine ⟨h.1 (.nonPositiveQuantity "AAPL" 0) (by decide), ?_, ?_, ?_⟩
  · exact h.2.1 (by decide)
      (fun e he => by
        rw [List.mem_singleton] at he
        exact ⟨165, by rw [he]; decide⟩)
      (by decide)
  · exact h.2.2.1 (by decide)
  · exact h'.2.2.2 [("initial_price", 150), ("current_price", 165)]
      (by decide) (by decide)

/-- C9: valuation is linear: valuing a single holding of `m + n` shares
equals the value of `m` shares plus the value of `n` shares at the same
price field, and likewise for the cost basis. -/
theorem value_linear (A f : String) (c : Catalog) (p p₀ : ℚ) (m n : Int)
    (hm : 0 < m) (hn : 0 < n)
    (hp : get_price c A f = .ok p)
    (hp₀ : get_price c A "initial_price" = .ok p₀) :
    (portfolio_value [(A, m + n)] c f = .ok ((m : ℚ) * p + (n : ℚ) * p) ∧
     portfolio_value [(A, m)] c f = .ok ((m : ℚ) * p) ∧
     portfolio_value [(A, n)] c f = .ok ((n : ℚ) * p)) ∧
    (portfolio_cost_basis [(A, m + n)] c = .ok ((m : ℚ) * p₀ + (n : ℚ) * p₀) ∧
     portfolio_cost_basis [(A, m)] c = .ok ((m : ℚ) * p₀) ∧
     portfolio_cost_basis [(A, n)] c = .ok ((n : ℚ) * p₀)) := by
  have hmn : 0 < m + n := by omega
  have hcast : ((m + n : Int) : ℚ) * p = (m : ℚ) * p + (n : ℚ) * p := by
    push_cast
    ring
  have hcast₀ : ((m + n : Int) : ℚ) * p₀ = (m : ℚ) * p₀ + (n : ℚ) * p₀ := by
    push_cast
    ring
  refine ⟨⟨?_, ?_, ?_⟩, ⟨?_, ?_, ?_⟩⟩
  · rw [value_singleton c A f (m + n) p hmn hp, hcast]
  · exact value_singleton c A f m p hm hp
  · exact value_singleton c A f n p hn hp
  · rw [portfolio_cost_basis, value_singleton c A "initial_price" (m + n) p₀ hmn hp₀,
      hcast₀]
  · exact value_singleton c A "initial_price" m p₀ hm hp₀
  · exact value_singleton c A "initial_price" n p₀ hn hp₀

/-- C9 witness: 1 + 2 shares of AAPL at the current price, and the cost
basis side. -/
theorem value_linear_witness :
    portfolio_value [("AAPL", 1 + 2)] appleCatalog "current_price" =
      .ok ((1 : ℚ) * 165 + (2 : ℚ) * 165) ∧
    portfolio_value [("AAPL", 1)] appleCatalog "current_price" = .ok ((1 : ℚ) * 165) ∧
    portfolio_value [("AAPL", 2)] appleCatalog "current_price" = .ok ((2 : ℚ) * 165) ∧
    portfolio_cost_basis [("AAPL", 1 + 2)] appleCatalog =
      .ok ((1 : ℚ) * 150 + (2 : ℚ) * 150) := by
  have h := value_linear "AAPL" "current_price" appleCatalog 165 150 1 2
    (by decide) (by decide) (by decide) (by decide)
  exact ⟨h.1.1, h.1.2.1, h.1.2.2, h.2.1⟩

/-- C5: `roi_percent` fails with EmptyPortfolio on the empty ledger;
otherwise, when the current value and the cost basis compute to `cur`
and `initial`, it fails with DivisionByZero when `initial = 0` and
returns `(cur - initial) / initial * 100` otherwise. -/
theorem roi_spec (l : Ledger) (c : Catalog) (cur initial : ℚ) :
    (∀ c' : Catalog, roi_percent [] c' = .error .emptyPortfolio) ∧
    (l ≠ [] →
     portfolio_value l c "current_price" = .ok cur →
     portfolio_cost_basis l c = .ok initial →
     roi_percent l c = if initial = 0 then .error .divisionByZero
                       else .ok ((cur - initial) / initial * 100)) := by
  constructor
  · intro c'
    simp [roi_percent, validate_inputs, validateQtys]
  · intro hne hcur hini
    have hval : validate_inputs l c = none := validate_of_value_ok l c _ cur hcur
    have hemp : l.isEmpty = false := by
      cases l with
      | nil => exact absurd rfl hne
      | cons hd tl => rfl
    rw [roi_percent, hval, hemp]
    simp only [Bool.false_eq_true, if_false]
    rw [hcur, hini]

/-- C5 witness: scenario 4 (empty portfolio), scenario 1 (ROI = 10%),
and scenario 5 (zero cost basis). -/
theorem roi_spec_witness :
    roi_percent [] appleCatalog = .error .emptyPortfolio ∧
    roi_percent [("AAPL", 3)] appleCatalog = .ok 10 ∧
    roi_percent [("AAPL", 1)]
      [("AAPL", [("initial_price", 0), ("current_price", 165)])] =
      .error .divisionByZero := by
  refine ⟨(roi_spec [] appleCatalog 0 0).1 appleCatalog, ?_, ?_⟩
  · have h := (roi_spec [("AAPL", 3)] appleCatalog 495 450).2
      (by decide)
      (by norm_num [portfolio_value, validate_inputs, validateQtys, valueLoop,
        get_price, appleCatalog, lookup_cons, current_ne_initial])
      (by norm_num [portfolio_cost_basis, portfolio_value, validate_inputs,
        validateQtys, valueLoop, get_price, appleCatalog, lookup_cons])
    rw [h]
    norm_num
  · have h := (roi_spec [("AAPL", 1)]
        [("AAPL", [("initial_price", 0), ("current_price", 165)])] 165 0).2
      (by decide)
      (by norm_num [portfolio_value, validate_inputs, validateQtys, valueLoop,
        get_price, lookup_cons, current_ne_initial])
      (by norm_num [portfolio_cost_basis, portfolio_value, validate_inputs,
        validateQtys, valueLoop, get_price, lookup_cons])
    rw [h, if_pos rfl]

end PortfolioTracker
